import Mathlib

/-!
Shallow embedding of `analyze_profiler.py` (function `analyze_profiler_trace`):
a command-line tool that reads a profiler trace (a JSON document with a
`traceEvents` list), groups the durations of complete ("X"-phase) events by
name, and prints per-name count/average/max/total statistics, a bottleneck
list (average > 10 ms) and a memory-event count.

Durations are JSON numbers (microseconds); we model them as rationals, and
the microsecond-to-millisecond conversion (`dur / 1000.0`) as division in ℚ.
The filesystem (for `--trace_file` / `--profiler_dir` selection) is modelled
as explicit data: files by path, directories as entry lists with creation
times.
-/

namespace AnalyzeProfiler

/-- One record of the `traceEvents` list.  Each of the three fields the
script reads may be absent (`event.get(...)` in the source). -/
structure Event where
  name? : Option String
  ph?   : Option String
  dur?  : Option ℚ
deriving DecidableEq, Repr

/-- The parsed trace document; `traceEvents` may be absent
(`trace_data.get('traceEvents', [])`). -/
structure TraceData where
  traceEvents? : Option (List Event)
deriving DecidableEq, Repr

/-- `event.get('name', 'unknown')` (line 62). -/
def effName (e : Event) : String := e.name?.getD "unknown"

/-- `event.get('dur', 0) / 1000.0` (line 63): microseconds to milliseconds. -/
def effDur (e : Event) : ℚ := e.dur?.getD 0 / 1000

/-- `event.get('ph') == 'X'` (line 61). -/
def isComplete (e : Event) : Bool := e.ph? == some "X"

/-- The statistics mapping: a Python dict from name to list of durations,
modelled as an association list in key-insertion order with values in
append order. -/
abbrev Stats := List (String × List ℚ)

/-- One iteration of the grouping loop body for a selected event:
`if name not in event_stats: event_stats[name] = []` followed by
`event_stats[name].append(duration)` (lines 65-67). -/
def addEvent (st : Stats) (n : String) (d : ℚ) : Stats :=
  if st.any (fun p => p.1 == n) then
    st.map (fun p => if p.1 = n then (p.1, p.2 ++ [d]) else p)
  else
    st ++ [(n, [d])]

/-- One iteration of the `for event in events` loop (lines 60-67): only
"X"-phase events touch the mapping. -/
def statsStep (st : Stats) (e : Event) : Stats :=
  if isComplete e then addEvent st (effName e) (effDur e) else st

/-- The grouping loop over the whole event list (lines 59-67). -/
def event_stats (events : List Event) : Stats :=
  events.foldl statsStep []

/-- Python `sum(durations)` in ℚ. -/
def totalOf (ds : List ℚ) : ℚ := ds.sum

/-- Python `sum(durations) / len(durations)` in ℚ (the script only applies
it to non-empty lists). -/
def avgOf (ds : List ℚ) : ℚ := ds.sum / (ds.length : ℚ)

/-- Python `max(durations)` on the non-empty lists the script builds. -/
def maxOf : List ℚ → ℚ
  | [] => 0
  | h :: t => t.foldl max h

/-- Stable insertion step for a descending sort by `key`: the new element
`x` goes in front of the first element whose key is `≤ key x`.  When used
right-to-left over the input (`sortDesc`), this places an earlier input
element before later ones with an equal key. -/
def insertDesc (key : α → ℚ) (x : α) : List α → List α
  | [] => [x]
  | y :: t => if key y ≤ key x then x :: y :: t else y :: insertDesc key x t

/-- Python `sorted(l, key=key, reverse=True)`: the unique stable sort of
`l` into descending key order. -/
def sortDesc (key : α → ℚ) (l : List α) : List α :=
  l.foldr (insertDesc key) []

/-- `sorted(event_stats.items(), key=lambda x: sum(x[1]), reverse=True)`
(line 74). -/
def sorted_events (st : Stats) : Stats :=
  sortDesc (fun p => totalOf p.2) st

/-- The ranked-report rows (lines 76-82): the first 20 sorted entries,
each rendered as (name, count, average, max, total). -/
def rankedReport (st : Stats) : List (String × ℕ × ℚ × ℚ × ℚ) :=
  ((sorted_events st).take 20).map
    (fun p => (p.1, p.2.length, avgOf p.2, maxOf p.2, totalOf p.2))

/-- `[(name, sum(d)/len(d)) for name, d in event_stats.items() if sum(d)/len(d) > 10]`
(lines 86-87). -/
def high_avg_events (st : Stats) : List (String × ℚ) :=
  (st.filter (fun p => (10 : ℚ) < avgOf p.2)).map (fun p => (p.1, avgOf p.2))

/-- `sorted(high_avg_events, key=lambda x: x[1], reverse=True)` (line 90). -/
def bottlenecks (st : Stats) : List (String × ℚ) :=
  sortDesc (fun p => p.2) (high_avg_events st)

/-- ASCII lowering of one character, as `str.lower()` acts on the
characters relevant to the "memory" test. -/
def lowerChars (s : String) : List Char := s.data.map Char.toLower

/-- `needle in hay` on character lists: `hay` contains `needle` as a
contiguous sublist. -/
def lcContains (needle : List Char) : List Char → Bool
  | [] => needle == []
  | c :: t => needle.isPrefixOf (c :: t) || lcContains needle t

/-- `'memory' in e.get('name', '').lower()` (line 96). -/
def isMemoryEvent (e : Event) : Bool :=
  lcContains "memory".data (lowerChars (e.name?.getD ""))

/-- `len([e for e in events if 'memory' in e.get('name', '').lower()])`
(lines 96, 99). -/
def memoryEventCount (events : List Event) : ℕ :=
  (events.filter isMemoryEvent).length

/-- Reading the statistics mapping at a name: the dict lookup
`event_stats[name]`, with `[]` for an absent key. -/
def statsFind (n : String) : Stats → List ℚ
  | [] => []
  | (m, ds) :: t => if m = n then ds else statsFind n t

/-- One printed line of the report, abstracting the formatted text. -/
inductive Line
  | analyzing (path : String)
  | statsHeader
  | statRow (name : String) (count : ℕ) (avg mx tot : ℚ)
  | bottleneckHeader
  | bottleneckRow (name : String) (avg : ℚ)
  | noBottlenecks
  | memoryEvents (n : ℕ)
  | recommendations
  | errFileMissing (p : String)
  | errDirMissing (p : String)
  | errNoTraces (p : String)
deriving DecidableEq, Repr

/-- Everything printed after a successful parse (lines 56-108), in print
order. -/
def reportLines (d : TraceData) : List Line :=
  let events := d.traceEvents?.getD []
  let st := event_stats events
  let memCount := memoryEventCount events
  [Line.statsHeader]
    ++ (rankedReport st).map
        (fun r => Line.statRow r.1 r.2.1 r.2.2.1 r.2.2.2.1 r.2.2.2.2)
    ++ [Line.bottleneckHeader]
    ++ (if (high_avg_events st).isEmpty then [Line.noBottlenecks]
        else (bottlenecks st).map (fun p => Line.bottleneckRow p.1 p.2))
    ++ (if memCount == 0 then [] else [Line.memoryEvents memCount])
    ++ [Line.recommendations]

/-- What a trace file on disk holds: a document that parses as JSON, or
content on which `json.load` raises. -/
inductive FileData
  | valid (d : TraceData)
  | invalid
deriving DecidableEq, Repr

/-- An uncaught Python exception escaping `analyze_profiler_trace`. -/
inductive Fault
  | jsonDecodeError
  | fileOpenError
deriving DecidableEq, Repr

/-- Outcome of one invocation: the printed lines of a run that returns
normally, or an unhandled exception. -/
inductive RunResult
  | ok (out : List Line)
  | fault (e : Fault)
deriving DecidableEq, Repr

/-- One entry of a profiler directory: a file name, its creation time and
its content. -/
structure DirEntry where
  fname   : String
  ctime   : ℕ
  content : FileData
deriving DecidableEq, Repr

/-- The ambient filesystem: files reachable by path, and directories with
their entry lists. -/
structure FS where
  files : List (String × FileData)
  dirs  : List (String × List DirEntry)
deriving DecidableEq, Repr

/-- `os.path.exists` / `open` on a path: the file's content when present. -/
def lookupFile (fs : FS) (p : String) : Option FileData :=
  (fs.files.find? (fun q => q.1 == p)).map (fun q => q.2)

/-- `os.path.exists` / `os.listdir` on a directory path. -/
def lookupDir (fs : FS) (p : String) : Option (List DirEntry) :=
  (fs.dirs.find? (fun q => q.1 == p)).map (fun q => q.2)

/-- `f.endswith('.json')` (line 40). -/
def endsWithJson (s : String) : Bool :=
  List.isSuffixOf ".json".data s.data

/-- `[f for f in os.listdir(profiler_dir) if f.endswith('.json')]` (line 40). -/
def traceFilesIn (entries : List DirEntry) : List DirEntry :=
  entries.filter (fun e => endsWithJson e.fname)

/-- `max(trace_files, key=getctime)` (line 45): Python's `max` keeps the
first element among those with the greatest key. -/
def latest_trace (entries : List DirEntry) : Option DirEntry :=
  match traceFilesIn entries with
  | [] => none
  | h :: t => some (t.foldl (fun acc x => if acc.ctime < x.ctime then x else acc) h)

/-- `json.load` on an opened file, then the report (lines 49-108): parse
failure raises an uncaught `json.JSONDecodeError`. -/
def loadAndReport (c : FileData) (path : String) : RunResult :=
  match c with
  | FileData.invalid => RunResult.fault Fault.jsonDecodeError
  | FileData.valid d => RunResult.ok (Line.analyzing path :: reportLines d)

/-- The whole of `analyze_profiler_trace(profiler_dir, trace_file)` over
the modelled filesystem.  A given `trace_file` is used directly; otherwise
the newest `.json` entry of `profiler_dir` is opened.  The three existence
failures are handled prints (lines 29-30, 36-37, 42-43); a parse failure
is not. -/
def analyze_profiler_trace (fs : FS) (profiler_dir : String)
    (trace_file : Option String) : RunResult :=
  match trace_file with
  | some tf =>
    match lookupFile fs tf with
    | none => RunResult.ok [Line.errFileMissing tf]
    | some c => loadAndReport c tf
  | none =>
    match lookupDir fs profiler_dir with
    | none => RunResult.ok [Line.errDirMissing profiler_dir]
    | some entries =>
      match latest_trace entries with
      | none => RunResult.ok [Line.errNoTraces profiler_dir]
      | some e => loadAndReport e.content (profiler_dir ++ "/" ++ e.fname)

end AnalyzeProfiler

namespace AnalyzeProfiler

/-! ### Lemmas about the stable descending sort -/

theorem insertDesc_perm (key : α → ℚ) (x : α) (m : List α) :
    (insertDesc key x m).Perm (x :: m) := by
  induction m with
  | nil => simp [insertDesc]
  | cons y t ih =>
    rw [insertDesc]
    by_cases h : key y ≤ key x
    · simp [h]
    · simpa [h] using (ih.cons y).trans (List.Perm.swap x y t)

theorem sortDesc_perm (key : α → ℚ) (l : List α) :
    (sortDesc key l).Perm l := by
  induction l with
  | nil => simp [sortDesc]
  | cons x t ih =>
    exact (insertDesc_perm key x (sortDesc key t)).trans (ih.cons x)

theorem mem_insertDesc {key : α → ℚ} {x z : α} {m : List α} :
    z ∈ insertDesc key x m ↔ z = x ∨ z ∈ m := by
  rw [(insertDesc_perm key x m).mem_iff, List.mem_cons]

theorem insertDesc_pairwise {key : α → ℚ} {x : α} {m : List α}
    (hm : m.Pairwise (fun a b => key b ≤ key a)) :
    (insertDesc key x m).Pairwise (fun a b => key b ≤ key a) := by
  induction m with
  | nil => simp [insertDesc]
  | cons y t ih =>
    rw [List.pairwise_cons] at hm
    rw [insertDesc]
    by_cases h : key y ≤ key x
    · rw [if_pos h]
      refine List.pairwise_cons.mpr ⟨?_, List.pairwise_cons.mpr hm⟩
      intro z hz
      rcases List.mem_cons.mp hz with rfl | hz
      · exact h
      · exact le_trans (hm.1 z hz) h
    · rw [if_neg h]
      refine List.pairwise_cons.mpr ⟨?_, ih hm.2⟩
      intro z hz
      rcases mem_insertDesc.mp hz with rfl | hz
      · exact le_of_not_le h
      · exact hm.1 z hz

theorem sortDesc_pairwise (key : α → ℚ) (l : List α) :
    (sortDesc key l).Pairwise (fun a b => key b ≤ key a) := by
  induction l with
  | nil => simp [sortDesc]
  | cons x t ih => exact insertDesc_pairwise ih

theorem insertDesc_filter_key {key : α → ℚ} (x : α) (m : List α) (k : ℚ) :
    (insertDesc key x m).filter (fun z => key z == k) =
      if key x == k then x :: m.filter (fun z => key z == k)
      else m.filter (fun z => key z == k) := by
  induction m with
  | nil => simp [insertDesc, List.filter_cons, beq_iff_eq]
  | cons y t ih =>
    rw [insertDesc]
    by_cases h : key y ≤ key x
    · rw [if_pos h]
      by_cases hx : key x = k <;>
        simp [List.filter_cons, beq_iff_eq, hx]
    · rw [if_neg h]
      by_cases hx : key x = k
      · have hy : ¬ key y = k := by
          intro hy
          exact h (by rw [hy, hx])
        simp [List.filter_cons, beq_iff_eq, hx, hy, ih]
      · by_cases hy : key y = k <;>
          simp [List.filter_cons, beq_iff_eq, hx, hy, ih]

theorem sortDesc_filter_key (key : α → ℚ) (l : List α) (k : ℚ) :
    (sortDesc key l).filter (fun z => key z == k) =
      l.filter (fun z => key z == k) := by
  induction l with
  | nil => rfl
  | cons x t ih =>
    show ((insertDesc key x (sortDesc key t)).filter _) = _
    rw [insertDesc_filter_key, ih]
    by_cases hx : key x = k <;> simp [List.filter_cons, beq_iff_eq, hx]

end AnalyzeProfiler

namespace AnalyzeProfiler

/-! ### Lemmas about the statistics mapping -/

theorem statsFind_of_not_any {n : String} {st : Stats}
    (h : st.any (fun p => p.1 == n) = false) : statsFind n st = [] := by
  induction st with
  | nil => rfl
  | cons p t ih =>
    obtain ⟨pn, pds⟩ := p
    simp only [List.any_cons, Bool.or_eq_false_iff, beq_eq_false_iff_ne] at h
    simp [statsFind, h.1, ih h.2]

theorem statsFind_append (st st' : Stats) (n : String) :
    statsFind n (st ++ st') =
      if st.any (fun p => p.1 == n) then statsFind n st else statsFind n st' := by
  induction st with
  | nil => simp [statsFind]
  | cons p t ih =>
    obtain ⟨pn, pds⟩ := p
    by_cases hp : pn = n
    · simp [statsFind, hp]
    · by_cases ht : t.any (fun p => p.1 == n) = true <;>
        simp [statsFind, hp, ht, ih]

theorem statsFind_map_ne {st : Stats} {m : String} {d : ℚ} {n : String}
    (hmn : m ≠ n) :
    statsFind n (st.map (fun p => if p.1 = m then (p.1, p.2 ++ [d]) else p)) =
      statsFind n st := by
  induction st with
  | nil => rfl
  | cons p t ih =>
    obtain ⟨pn, pds⟩ := p
    rw [List.map_cons]
    by_cases hpm : pn = m
    · have hpn : ¬ pn = n := by rw [hpm]; exact hmn
      rw [show (if (pn, pds).1 = m then ((pn, pds).1, (pn, pds).2 ++ [d]) else (pn, pds))
            = (pn, pds ++ [d]) from by simp [hpm]]
      simp [statsFind, hpn, ih]
    · rw [show (if (pn, pds).1 = m then ((pn, pds).1, (pn, pds).2 ++ [d]) else (pn, pds))
            = (pn, pds) from by simp [hpm]]
      by_cases hpn : pn = n <;> simp [statsFind, hpn, ih]

theorem statsFind_map_eq {st : Stats} {m : String} {d : ℚ}
    (h : st.any (fun p => p.1 == m) = true) :
    statsFind m (st.map (fun p => if p.1 = m then (p.1, p.2 ++ [d]) else p)) =
      statsFind m st ++ [d] := by
  induction st with
  | nil => simp at h
  | cons p t ih =>
    obtain ⟨pn, pds⟩ := p
    rw [List.map_cons]
    by_cases hpm : pn = m
    · rw [show (if (pn, pds).1 = m then ((pn, pds).1, (pn, pds).2 ++ [d]) else (pn, pds))
            = (pn, pds ++ [d]) from by simp [hpm]]
      simp [statsFind, hpm]
    · have h' : t.any (fun p => p.1 == m) = true := by
        simpa [List.any_cons, hpm] using h
      rw [show (if (pn, pds).1 = m then ((pn, pds).1, (pn, pds).2 ++ [d]) else (pn, pds))
            = (pn, pds) from by simp [hpm]]
      simp [statsFind, hpm, ih h']

theorem statsFind_addEvent (st : Stats) (m : String) (d : ℚ) (n : String) :
    statsFind n (addEvent st m d) =
      statsFind n st ++ (if m = n then [d] else []) := by
  rw [addEvent]
  by_cases hany : st.any (fun p => p.1 == m) = true
  · rw [if_pos hany]
    by_cases hmn : m = n
    · subst hmn
      rw [statsFind_map_eq hany, if_pos rfl]
    · rw [statsFind_map_ne hmn, if_neg hmn, List.append_nil]
  · rw [if_neg hany, statsFind_append]
    by_cases hmn : m = n
    · subst hmn
      have hn : st.any (fun p => p.1 == m) = false := Bool.eq_false_iff.mpr hany
      rw [if_neg hany, statsFind_of_not_any hn, if_pos rfl]
      simp [statsFind]
    · rw [if_neg hmn, List.append_nil]
      by_cases hn : st.any (fun p => p.1 == n) = true
      · rw [if_pos hn]
      · rw [if_neg hn, statsFind_of_not_any (Bool.eq_false_iff.mpr hn)]
        simp [statsFind, hmn]

theorem statsFind_foldl (events : List Event) (st : Stats) (n : String) :
    statsFind n (events.foldl statsStep st) =
      statsFind n st
        ++ (events.filter (fun e => isComplete e && (effName e == n))).map effDur := by
  induction events generalizing st with
  | nil => simp
  | cons e es ih =>
    rw [List.foldl_cons, ih, statsStep]
    by_cases hc : isComplete e = true
    · rw [if_pos hc, statsFind_addEvent]
      by_cases hn : effName e = n
      · simp [List.filter_cons, hc, hn, beq_iff_eq]
      · simp [List.filter_cons, hc, hn, beq_iff_eq]
    · rw [if_neg hc]
      simp [List.filter_cons, Bool.eq_false_iff.mpr hc]

theorem foldl_statsStep_filter (events : List Event) (st : Stats) :
    events.foldl statsStep st =
      (events.filter (fun e => isComplete e)).foldl statsStep st := by
  induction events generalizing st with
  | nil => rfl
  | cons e es ih =>
    by_cases hc : isComplete e = true <;>
      simp [List.filter_cons, hc, statsStep, List.foldl_cons, ih]

end AnalyzeProfiler

namespace AnalyzeProfiler

/-! ### Substring containment and latest-file selection -/

theorem lcContains_iff (needle hay : List Char) :
    lcContains needle hay = true ↔ ∃ s t, hay = s ++ needle ++ t := by
  induction hay with
  | nil =>
    rw [lcContains, beq_iff_eq]
    constructor
    · rintro rfl
      exact ⟨[], [], rfl⟩
    · rintro ⟨s, t, h⟩
      rcases List.append_eq_nil.mp h.symm with ⟨h1, h2⟩
      rcases List.append_eq_nil.mp h1 with ⟨_, h3⟩
      exact h3
  | cons c t ih =>
    rw [lcContains, Bool.or_eq_true, ih, List.isPrefixOf_iff_prefix]
    constructor
    · rintro (hpre | ⟨s, u, rfl⟩)
      · obtain ⟨u, hu⟩ := hpre
        exact ⟨[], u, by simp [hu]⟩
      · exact ⟨c :: s, u, rfl⟩
    · rintro ⟨s, u, hsu⟩
      cases s with
      | nil =>
        left
        exact ⟨u, by simpa using hsu.symm⟩
      | cons c0 s' =>
        right
        rw [List.cons_append, List.cons_append] at hsu
        rcases List.cons.injEq .. ▸ hsu with ⟨_, ht⟩
        exact ⟨s', u, ht⟩

theorem foldl_latest_mem (t : List DirEntry) (h : DirEntry) :
    t.foldl (fun acc x => if acc.ctime < x.ctime then x else acc) h ∈ h :: t := by
  induction t generalizing h with
  | nil => simp
  | cons x t' ih =>
    rw [List.foldl_cons]
    rcases List.mem_cons.mp (ih (if h.ctime < x.ctime then x else h)) with heq | hmem
    · rw [heq]
      by_cases hx : h.ctime < x.ctime <;> simp [hx]
    · simp [List.mem_cons.mpr (Or.inr (List.mem_cons.mpr (Or.inr hmem)))]

theorem foldl_latest_acc (t : List DirEntry) (h : DirEntry) :
    h.ctime ≤ (t.foldl (fun acc x => if acc.ctime < x.ctime then x else acc) h).ctime := by
  induction t generalizing h with
  | nil => exact le_refl _
  | cons x t' ih =>
    rw [List.foldl_cons]
    refine le_trans ?_ (ih (if h.ctime < x.ctime then x else h))
    by_cases hx : h.ctime < x.ctime
    · rw [if_pos hx]; exact le_of_lt hx
    · rw [if_neg hx]

theorem foldl_latest_max (t : List DirEntry) (h g : DirEntry) (hg : g ∈ h :: t) :
    g.ctime ≤ (t.foldl (fun acc x => if acc.ctime < x.ctime then x else acc) h).ctime := by
  induction t generalizing h with
  | nil =>
    rw [List.mem_singleton] at hg
    rw [hg, List.foldl_nil]
  | cons x t' ih =>
    rw [List.foldl_cons]
    rcases List.mem_cons.mp hg with rfl | hg'
    · refine le_trans ?_ (foldl_latest_acc t' (if g.ctime < x.ctime then x else g))
      by_cases hx : g.ctime < x.ctime
      · rw [if_pos hx]; exact le_of_lt hx
      · rw [if_neg hx]
    rcases List.mem_cons.mp hg' with rfl | hg''
    · refine le_trans ?_ (foldl_latest_acc t' (if h.ctime < g.ctime then g else h))
      by_cases hx : h.ctime < g.ctime
      · rw [if_pos hx]
      · rw [if_neg hx]; exact le_of_not_lt hx
    · exact ih _ (List.mem_cons_of_mem _ hg'')

theorem latest_trace_spec (entries : List DirEntry) (e : DirEntry)
    (h : latest_trace entries = some e) :
    endsWithJson e.fname = true ∧ e ∈ entries ∧
      ∀ g ∈ entries, endsWithJson g.fname = true → g.ctime ≤ e.ctime := by
  rw [latest_trace] at h
  rcases htf : traceFilesIn entries with _ | ⟨hd, tl⟩
  · rw [htf] at h
    exact absurd h (by simp)
  · rw [htf] at h
    have he : e = tl.foldl (fun acc x => if acc.ctime < x.ctime then x else acc) hd :=
      (Option.some.injEq .. ▸ h).symm
    have hmem : e ∈ hd :: tl := he ▸ foldl_latest_mem tl hd
    have hmem' : e ∈ traceFilesIn entries := htf ▸ hmem
    refine ⟨(List.mem_filter.mp hmem').2, (List.mem_filter.mp hmem').1, ?_⟩
    intro g hg hgj
    have hgmem : g ∈ traceFilesIn entries := List.mem_filter.mpr ⟨hg, hgj⟩
    rw [htf] at hgmem
    exact he ▸ foldl_latest_max tl hd g hgmem

end AnalyzeProfiler

namespace AnalyzeProfiler

/-! ### Locating messages in the report -/

theorem noBottlenecks_mem_reportLines (d : TraceData) :
    Line.noBottlenecks ∈ reportLines d ↔
      (high_avg_events (event_stats (d.traceEvents?.getD []))).isEmpty = true := by
  by_cases hb : (high_avg_events (event_stats (d.traceEvents?.getD []))).isEmpty = true
  · simp [reportLines, hb]
  · by_cases hm : (memoryEventCount (d.traceEvents?.getD []) == 0) = true
    · simp [reportLines, hb, hm]
    · simp [reportLines, hb, hm]

theorem memoryEvents_mem_reportLines (d : TraceData) (k : ℕ) :
    Line.memoryEvents k ∈ reportLines d ↔
      k = memoryEventCount (d.traceEvents?.getD []) ∧ k ≠ 0 := by
  by_cases hb : (high_avg_events (event_stats (d.traceEvents?.getD []))).isEmpty = true
  · by_cases hm : (memoryEventCount (d.traceEvents?.getD []) == 0) = true
    · simp [reportLines, hb, hm]
      intro hk
      rw [hk]
      exact beq_iff_eq.mp hm
    · simp [reportLines, hb, hm]
      intro hk hk0
      exact hm (beq_iff_eq.mpr (hk ▸ hk0))
  · by_cases hm : (memoryEventCount (d.traceEvents?.getD []) == 0) = true
    · simp [reportLines, hb, hm]
      intro hk
      rw [hk]
      exact beq_iff_eq.mp hm
    · simp [reportLines, hb, hm]
      intro hk hk0
      exact hm (beq_iff_eq.mpr (hk ▸ hk0))

end AnalyzeProfiler

namespace AnalyzeProfiler

/-- C2: for every statistics mapping, the ranked report is the sequence of
(name, count, average, max, total) tuples sorted by total duration
descending with ties kept in the mapping's insertion order (stable sort),
truncated to the first 20 entries, or all entries when fewer exist. -/
theorem ranked_report_sorted_stable_top20 :
    ∀ st : Stats,
      (sorted_events st).Perm st ∧
      (sorted_events st).Pairwise (fun a b => totalOf b.2 ≤ totalOf a.2) ∧
      (∀ k : ℚ, (sorted_events st).filter (fun p => totalOf p.2 == k)
          = st.filter (fun p => totalOf p.2 == k)) ∧
      rankedReport st = ((sorted_events st).take 20).map
        (fun p => (p.1, p.2.length, avgOf p.2, maxOf p.2, totalOf p.2)) ∧
      (rankedReport st).length = min 20 st.length := by
  intro st
  refine ⟨sortDesc_perm _ st, sortDesc_pairwise _ st,
    fun k => sortDesc_filter_key _ st k, rfl, ?_⟩
  rw [rankedReport, List.length_map, List.length_take, sorted_events,
    (sortDesc_perm (fun p => totalOf p.2) st).length_eq]

/-- C9: every duration stored under a name key of the statistics mapping
comes from a selected event whose effective name equals that key, and the
durations of the selected events with that name appear there exactly once,
in trace order. -/
theorem stats_mapping_partitions_durations :
    ∀ (events : List Event) (n : String),
      statsFind n (event_stats events) =
        (events.filter (fun e => isComplete e && (effName e == n))).map effDur := by
  intro events n
  rw [event_stats, statsFind_foldl]
  simp [statsFind]

/-- C3: the bottleneck list holds exactly the names with average strictly
above 10 ms (average exactly 10 is excluded), sorted by average descending
with ties in insertion order; when it is empty the report carries the
no-bottlenecks message instead. -/
theorem bottleneck_list_correct :
    (∀ st : Stats,
      (∀ n a, (n, a) ∈ high_avg_events st ↔
        ∃ ds, (n, ds) ∈ st ∧ a = avgOf ds ∧ (10 : ℚ) < a) ∧
      (bottlenecks st).Perm (high_avg_events st) ∧
      (bottlenecks st).Pairwise (fun a b => b.2 ≤ a.2) ∧
      (∀ k : ℚ, (bottlenecks st).filter (fun p => p.2 == k)
          = (high_avg_events st).filter (fun p => p.2 == k))) ∧
    (∀ d : TraceData,
      ((high_avg_events (event_stats (d.traceEvents?.getD []))).isEmpty = true ↔
        Line.noBottlenecks ∈ reportLines d)) := by
  constructor
  · intro st
    refine ⟨?_, sortDesc_perm _ _, sortDesc_pairwise _ _,
      fun k => sortDesc_filter_key _ _ k⟩
    intro n a
    simp only [high_avg_events, List.mem_map, List.mem_filter, decide_eq_true_eq]
    constructor
    · rintro ⟨⟨pn, pds⟩, ⟨hmem, havg⟩, heq⟩
      rcases Prod.mk.injEq .. ▸ heq with ⟨h1, h2⟩
      exact ⟨pds, h1 ▸ hmem, h2.symm, h2 ▸ havg⟩
    · rintro ⟨ds, hmem, rfl, hgt⟩
      exact ⟨(n, ds), ⟨hmem, hgt⟩, rfl⟩
  · intro d
    exact (noBottlenecks_mem_reportLines d).symm

/-- C4: only events with phase tag "X" contribute to the statistics
mapping; a trace whose events all have another phase yields an empty
mapping and the no-bottlenecks message. -/
theorem only_complete_events_contribute :
    (∀ events : List Event,
      event_stats events = event_stats (events.filter (fun e => isComplete e))) ∧
    (∀ d : TraceData,
      (d.traceEvents?.getD []).all (fun e => !(isComplete e)) = true →
        event_stats (d.traceEvents?.getD []) = [] ∧
        Line.noBottlenecks ∈ reportLines d) := by
  constructor
  · intro events
    rw [event_stats, event_stats, foldl_statsStep_filter]
  · intro d hall
    have hf : (d.traceEvents?.getD []).filter (fun e => isComplete e) = [] := by
      rw [List.filter_eq_nil_iff]
      intro a ha
      have := (List.all_eq_true.mp hall) a ha
      simpa using this
    have hst : event_stats (d.traceEvents?.getD []) = [] := by
      rw [event_stats, foldl_statsStep_filter, hf]
      rfl
    refine ⟨hst, ?_⟩
    rw [noBottlenecks_mem_reportLines, hst]
    rfl

/-- C5: a selected event's duration is divided by 1000 before being
stored; on the two-event trace A (5000 µs) and B (20000 µs) the report has
count 1 and averages 5 ms and 20 ms, with B ranked above A. -/
theorem durations_converted_to_milliseconds :
    (∀ (q : ℚ) (nm : String),
      event_stats [⟨some nm, some "X", some q⟩] = [(nm, [q / 1000])]) ∧
    event_stats [⟨some "A", some "X", some 5000⟩, ⟨some "B", some "X", some 20000⟩]
      = [("A", [5]), ("B", [20])] ∧
    rankedReport (event_stats
        [⟨some "A", some "X", some 5000⟩, ⟨some "B", some "X", some 20000⟩])
      = [("B", 1, 20, 20, 20), ("A", 1, 5, 5, 5)] := by
  have h1 : event_stats [⟨some "A", some "X", some 5000⟩, ⟨some "B", some "X", some 20000⟩]
      = [("A", [5]), ("B", [20])] := by
    norm_num [event_stats, statsStep, addEvent, effName, effDur, isComplete]
    decide
  refine ⟨?_, h1, ?_⟩
  · intro q nm
    simp [event_stats, statsStep, addEvent, effName, effDur, isComplete]
  · rw [rankedReport, sorted_events, h1]
    norm_num [sortDesc, insertDesc, totalOf, avgOf, maxOf]

/-- C6: a selected event lacking `dur` contributes 0.0 ms, and one lacking
`name` is keyed under "unknown". -/
theorem missing_field_defaults :
    (∀ nm : Option String,
      event_stats [⟨nm, some "X", none⟩] = [(nm.getD "unknown", [0])]) ∧
    (∀ dq : Option ℚ,
      event_stats [⟨none, some "X", dq⟩] = [("unknown", [dq.getD 0 / 1000])]) ∧
    event_stats [⟨some "a", some "X", none⟩, ⟨some "a", some "X", some 2000⟩]
      = [("a", [0, 2])] := by
  refine ⟨?_, ?_, ?_⟩
  · intro nm
    simp [event_stats, statsStep, addEvent, effName, effDur, isComplete]
  · intro dq
    simp [event_stats, statsStep, addEvent, effName, effDur, isComplete]
  · norm_num [event_stats, statsStep, addEvent, effName, effDur, isComplete]

/-- C7: in directory mode the tool selects the most recently created
`.json` entry of the directory; with a.json (ctime 1) and b.json (ctime 2)
it selects and analyzes b.json. -/
theorem directory_mode_selects_newest_json :
    (∀ (entries : List DirEntry) (e : DirEntry),
      latest_trace entries = some e →
        endsWithJson e.fname = true ∧ e ∈ entries ∧
          ∀ g ∈ entries, endsWithJson g.fname = true → g.ctime ≤ e.ctime) ∧
    latest_trace [⟨"a.json", 1, FileData.valid ⟨none⟩⟩,
        ⟨"b.json", 2, FileData.valid ⟨none⟩⟩]
      = some ⟨"b.json", 2, FileData.valid ⟨none⟩⟩ ∧
    analyze_profiler_trace
        ⟨[], [("d", [⟨"a.json", 1, FileData.valid ⟨none⟩⟩,
                      ⟨"b.json", 2, FileData.valid ⟨none⟩⟩])]⟩ "d" none
      = RunResult.ok (Line.analyzing "d/b.json" :: reportLines ⟨none⟩) := by
  refine ⟨latest_trace_spec, ?_, ?_⟩
  · rfl
  · rfl

/-- C7 witness: instantiating the selection property on the two-file
directory shows b.json (the newer file) is picked and dominates. -/
theorem directory_mode_selects_newest_json_witness :
    endsWithJson (DirEntry.mk "b.json" 2 (FileData.valid ⟨none⟩)).fname = true ∧
    DirEntry.mk "b.json" 2 (FileData.valid ⟨none⟩) ∈
      [DirEntry.mk "a.json" 1 (FileData.valid ⟨none⟩),
       DirEntry.mk "b.json" 2 (FileData.valid ⟨none⟩)] ∧
    ∀ g ∈ [DirEntry.mk "a.json" 1 (FileData.valid ⟨none⟩),
           DirEntry.mk "b.json" 2 (FileData.valid ⟨none⟩)],
      endsWithJson g.fname = true →
        g.ctime ≤ (DirEntry.mk "b.json" 2 (FileData.valid ⟨none⟩)).ctime :=
  directory_mode_selects_newest_json.1
    [DirEntry.mk "a.json" 1 (FileData.valid ⟨none⟩),
     DirEntry.mk "b.json" 2 (FileData.valid ⟨none⟩)]
    (DirEntry.mk "b.json" 2 (FileData.valid ⟨none⟩)) rfl

/-- C8: the memory-event count is the number of event records, of any
phase, whose name lowercased contains "memory" as a substring; the report
carries only this count. -/
theorem memory_event_count_correct :
    (∀ e : Event, isMemoryEvent e = true ↔
      ∃ s t, lowerChars (e.name?.getD "") = s ++ "memory".data ++ t) ∧
    (∀ (e : Event) (ph : Option String),
      isMemoryEvent ⟨e.name?, ph, e.dur?⟩ = isMemoryEvent e) ∧
    (∀ events : List Event,
      memoryEventCount events = events.countP isMemoryEvent) ∧
    (∀ (d : TraceData) (k : ℕ),
      Line.memoryEvents k ∈ reportLines d ↔
        k = memoryEventCount (d.traceEvents?.getD []) ∧ k ≠ 0) := by
  refine ⟨?_, ?_, ?_, memoryEvents_mem_reportLines⟩
  · intro e
    exact lcContains_iff "memory".data (lowerChars (e.name?.getD ""))
  · intro e ph
    rfl
  · intro events
    rw [memoryEventCount, List.countP_eq_length_filter]

/-- C10: an input that parses as a JSON object without the `traceEvents`
key is not an error: the run returns normally with zero events, an empty
statistics mapping and the full report including the no-bottlenecks
message. -/
theorem missing_trace_events_key_ok :
    (∀ p : String, loadAndReport (FileData.valid ⟨none⟩) p
        = RunResult.ok (Line.analyzing p :: reportLines ⟨none⟩)) ∧
    reportLines ⟨none⟩ =
      [Line.statsHeader, Line.bottleneckHeader, Line.noBottlenecks,
       Line.recommendations] ∧
    event_stats ((⟨none⟩ : TraceData).traceEvents?.getD []) = [] := by
  refine ⟨fun p => rfl, ?_, rfl⟩
  rfl

/-- C1 counterexample: on a filesystem whose file "t.json" exists but does
not parse as JSON, the invocation ends in an unhandled JSON-decode fault,
not a handled message — refuting the claim that no unhandled fault is
raised. -/
theorem malformed_json_raises_unhandled :
    analyze_profiler_trace ⟨[("t.json", FileData.invalid)], []⟩ "" (some "t.json")
      = RunResult.fault Fault.jsonDecodeError := by
  rfl

/-- C1 (amended): for every invocation on a file that exists but does not
parse as valid JSON — directly named or discovered as the newest `.json`
entry of the directory — the run ends without producing any part of the
report, but by raising an unhandled JSON-decode fault rather than printing
a handled message. -/
theorem malformed_json_fault_no_report :
    (∀ (fs : FS) (pd tf : String),
      lookupFile fs tf = some FileData.invalid →
        analyze_profiler_trace fs pd (some tf)
          = RunResult.fault Fault.jsonDecodeError) ∧
    (∀ (fs : FS) (pd : String) (entries : List DirEntry) (e : DirEntry),
      lookupDir fs pd = some entries → latest_trace entries = some e →
        e.content = FileData.invalid →
        analyze_profiler_trace fs pd none
          = RunResult.fault Fault.jsonDecodeError) := by
  constructor
  · intro fs pd tf h
    simp [analyze_profiler_trace, h, loadAndReport]
  · intro fs pd entries e h1 h2 h3
    simp [analyze_profiler_trace, h1, h2, h3, loadAndReport]

/-- C1 witness: the amended statement applied to a one-file filesystem
holding only an unparsable "t.json". -/
theorem malformed_json_fault_no_report_witness :
    analyze_profiler_trace ⟨[("t.json", FileData.invalid)], []⟩ "" (some "t.json")
      = RunResult.fault Fault.jsonDecodeError :=
  malformed_json_fault_no_report.1 ⟨[("t.json", FileData.invalid)], []⟩ "" "t.json" rfl

/-- C4 witness: a one-event trace whose only event has phase "B" yields an
empty statistics mapping and the no-bottlenecks message. -/
theorem only_complete_events_contribute_witness :
    event_stats ((TraceData.mk (some [⟨some "E", some "B", some 5000⟩])).traceEvents?.getD [])
        = [] ∧
    Line.noBottlenecks ∈ reportLines (TraceData.mk (some [⟨some "E", some "B", some 5000⟩])) :=
  only_complete_events_contribute.2 ⟨some [⟨some "E", some "B", some 5000⟩]⟩ rfl

end AnalyzeProfiler
